import Mathlib

/-!
# Verification of the img-router generation client and inline marker engine

This development gives a shallow embedding of the functional core of the
img-router chat-extension (the image-generation HTTP client, its SSE stream
decoder, the image-reference extraction rules, and the inline prompt-marker
cache) and proves the specified properties about it.

Strings are modelled as `List Char` (named `Str` below); JavaScript string
operations (trim, regex scans, splits) are translated into executable Lean
functions over `Str`.  `JSON.parse` is an external host facility and is
modelled as a parameter `Str → Option Json` over an explicit `Json` value
type; all field projections and truthiness tests applied to parsed values
are translated from the source.
-/

namespace ImgRouter

/-- Model of a JavaScript string. -/
abbrev Str := List Char

/-- Convert a Lean string literal to the model type. -/
def str (s : String) : Str := s.toList

/-- JavaScript `\s` (whitespace) character class, also used by `trim`:
space, tab, line terminators, form/vertical feed, NBSP (U+00A0), Ogham space
(U+1680), the U+2000–U+200A range, LS/PS (U+2028/U+2029), NNBSP (U+202F),
MMSP (U+205F), ideographic space (U+3000) and the BOM (U+FEFF). -/
def jsWhitespace (c : Char) : Bool :=
  c = ' ' ∨ c = '\t' ∨ c = '\n' ∨ c = '\r' ∨
  c.toNat = 0x0b ∨ c.toNat = 0x0c ∨
  c.toNat = 0xa0 ∨ c.toNat = 0x1680 ∨
  (0x2000 ≤ c.toNat ∧ c.toNat ≤ 0x200a) ∨
  c.toNat = 0x2028 ∨ c.toNat = 0x2029 ∨ c.toNat = 0x202f ∨
  c.toNat = 0x205f ∨ c.toNat = 0x3000 ∨ c.toNat = 0xfeff

/-- JavaScript line terminators (`\n`, `\r`, U+2028, U+2029): the characters
that the regex `.` does not match. -/
def isLineTerm (c : Char) : Bool :=
  c = '\n' ∨ c = '\r' ∨ c.toNat = 0x2028 ∨ c.toNat = 0x2029

/-- ASCII lower-casing, used to model the regex `i` flag (which, without the
`u` flag, canonicalizes case only across ASCII for ASCII pattern letters). -/
def lowerChar (c : Char) : Char :=
  match c with
  | 'A' => 'a' | 'B' => 'b' | 'C' => 'c' | 'D' => 'd' | 'E' => 'e' | 'F' => 'f'
  | 'G' => 'g' | 'H' => 'h' | 'I' => 'i' | 'J' => 'j' | 'K' => 'k' | 'L' => 'l'
  | 'M' => 'm' | 'N' => 'n' | 'O' => 'o' | 'P' => 'p' | 'Q' => 'q' | 'R' => 'r'
  | 'S' => 's' | 'T' => 't' | 'U' => 'u' | 'V' => 'v' | 'W' => 'w' | 'X' => 'x'
  | 'Y' => 'y' | 'Z' => 'z'
  | _ => c

/-- The base64 alphabet `[A-Za-z0-9+/=]` of extraction rule 4. -/
def base64Char (c : Char) : Bool :=
  ('A' ≤ c ∧ c ≤ 'Z') ∨ ('a' ≤ c ∧ c ≤ 'z') ∨ ('0' ≤ c ∧ c ≤ '9') ∨
  c = '+' ∨ c = '/' ∨ c = '='

/-- JavaScript `String.prototype.trim`. -/
def trim (s : Str) : Str :=
  ((s.dropWhile jsWhitespace).reverse.dropWhile jsWhitespace).reverse

/-- Case-sensitive literal prefix test (`String.prototype.startsWith`). -/
def startsWith (lit s : Str) : Bool :=
  match lit, s with
  | [], _ => true
  | _ :: _, [] => false
  | l :: ls, c :: cs => l = c ∧ startsWith ls cs

/-- Split a literal prefix off `s`, case-sensitively. -/
def splitLit (lit s : Str) : Option Str :=
  match lit, s with
  | [], _ => some s
  | _ :: _, [] => none
  | l :: ls, c :: cs => if l = c then splitLit ls cs else none

/-- Split a literal prefix off `s`, case-insensitively (regex `i` flag). -/
def splitLitCI (lit s : Str) : Option Str :=
  match lit, s with
  | [], _ => some s
  | _ :: _, [] => none
  | l :: ls, c :: cs => if lowerChar l = lowerChar c then splitLitCI ls cs else none

/-! ## Image extraction (`extractImageFromContent`)

Rule 1 is the regex `!\[.*?\]\((.*?)\)`: a leftmost match, with the lazy
quantifiers resolved by backtracking exactly as the JavaScript engine does.
-/

/-- The lazy group `(.*?)\)`: the characters up to the first `)`, failing on a
line terminator or the end of the string. -/
def findCloseParen : Str → Option Str
  | [] => none
  | c :: rest =>
    if c = ')' then some []
    else if isLineTerm c then none
    else (findCloseParen rest).map (c :: ·)

/-- Matching of `.*?\]\((.*?)\)` (the part of rule 1 after `![`): scan for the
next `](`; when the group after it cannot be closed, the lazy `.*?` extends
past that `]` and the scan continues. -/
def mdAfterBracket : Str → Option Str
  | [] => none
  | c :: rest =>
    if c = ']' then
      match rest with
      | '(' :: b =>
        match findCloseParen b with
        | some g => some g
        | none => mdAfterBracket rest
      | _ => mdAfterBracket rest
    else if isLineTerm c then none
    else mdAfterBracket rest

/-- Leftmost match of rule 1, `content.match(/!\[.*?\]\((.*?)\))/`, returning
the captured URL group. -/
def mdFind : Str → Option Str
  | [] => none
  | c :: rest =>
    if c = '!' then
      match rest with
      | '[' :: rest2 =>
        match mdAfterBracket rest2 with
        | some g => some g
        | none => mdFind rest
      | _ => mdFind rest
    else mdFind rest

/-! Rule 2 is the regex `(https?:\/\/[^\s"']+\.(?:png|jpg|jpeg|webp|gif|bmp))/i`. -/

/-- A character of the body class `[^\s"']`. -/
def urlBodyChar (c : Char) : Bool :=
  ¬ jsWhitespace c ∧ c ≠ '"' ∧ c ≠ '\''

/-- The image extensions of rule 2, in the alternation order of the regex. -/
def imageExts : List Str :=
  [str "png", str "jpg", str "jpeg", str "webp", str "gif", str "bmp"]

/-- Match the extension alternation case-insensitively against `t`, returning
the original characters it consumes. -/
def extMatch (t : Str) : Option Str :=
  match imageExts.find? (fun e => (splitLitCI e t).isSome) with
  | some e => some (t.take e.length)
  | none => none

/-- Backtracking of the greedy `[^\s"']+` of rule 2 inside the maximal body
run `R`: try consumed lengths from longest to shortest, requiring a literal
`.` and then an extension after the consumed part. -/
def urlBodyBacktrack (R : Str) : Nat → Option Str
  | 0 => none
  | n + 1 =>
    match R.drop (n + 1) with
    | '.' :: t =>
      match extMatch t with
      | some e => some (R.take (n + 1) ++ '.' :: e)
      | none => urlBodyBacktrack R n
    | _ => urlBodyBacktrack R n

/-- The greedy optional `s?` of rule 2: whether the next character is an `s`
(case-insensitively). -/
def optS (r : Str) : Bool :=
  match r with
  | c :: _ => lowerChar c = 's'
  | [] => false

/-- Attempt rule 2 at the current position: `https?` (case-insensitive),
`://`, then the greedy body with its extension. Returns the matched slice. -/
def urlMatchAt (s : Str) : Option Str :=
  match splitLitCI (str "http") s with
  | none => none
  | some r1 =>
    let r2 := if optS r1 then r1.tail else r1
    match splitLitCI (str "://") r2 with
    | none => none
    | some r3 =>
      let R := r3.takeWhile urlBodyChar
      match urlBodyBacktrack R R.length with
      | some body =>
        some (s.take 4 ++ (if optS r1 then r1.take 1 else []) ++ str "://" ++ body)
      | none => none

/-- Leftmost match of rule 2 over the content. -/
def urlFind : Str → Option Str
  | [] => none
  | c :: rest =>
    match urlMatchAt (c :: rest) with
    | some m => some m
    | none => urlFind rest

/-! Rule 3 is the (case-sensitive) regex `(data:image\/[^;]+;base64,[^"\s]+)`. -/

/-- A character of the base64-payload class `[^"\s]`. -/
def payloadChar (c : Char) : Bool :=
  c ≠ '"' ∧ ¬ jsWhitespace c

/-- Attempt rule 3 at the current position, returning the matched slice. -/
def dataUriMatchAt (s : Str) : Option Str :=
  match splitLit (str "data:image/") s with
  | none => none
  | some r1 =>
    let subtype := r1.takeWhile (· ≠ ';')
    if subtype = [] then none
    else
      match splitLit (';' :: str "base64,") (r1.drop subtype.length) with
      | none => none
      | some r2 =>
        let payload := r2.takeWhile payloadChar
        if payload = [] then none
        else some (str "data:image/" ++ subtype ++ ';' :: str "base64," ++ payload)

/-- Leftmost match of rule 3 over the content. -/
def dataUriFind : Str → Option Str
  | [] => none
  | c :: rest =>
    match dataUriMatchAt (c :: rest) with
    | some m => some m
    | none => dataUriFind rest

/-- `extractImageFromContent(content)`: the prioritized extraction rules.
Rule 4 strips all whitespace and recognizes a bare base64 payload longer than
100 characters; rule 5 falls back to a trimmed `http(s)://` string with the
stray characters `' " ( )` removed. -/
def extractImageFromContent (content : Str) : Option Str :=
  if content = [] then none
  else match mdFind content with
  | some url => some url
  | none =>
    match urlFind content with
    | some u => some u
    | none =>
      match dataUriFind content with
      | some d => some d
      | none =>
        let cleanContent := (trim content).filter (fun c => !jsWhitespace c)
        if cleanContent.length > 100 ∧ cleanContent ≠ [] ∧ cleanContent.all base64Char then
          some (str "data:image/png;base64," ++ cleanContent)
        else
          let trimmed := trim content
          if startsWith (str "http://") trimmed ∨ startsWith (str "https://") trimmed then
            some (trimmed.filter (fun c => !(c = '\'' ∨ c = '"' ∨ c = '(' ∨ c = ')' : Bool)))
          else none

/-! ## Lemmas about the extraction rules -/

theorem mdFind_append_of_no_bang (pre rest : Str) (h : ∀ c ∈ pre, c ≠ '!') :
    mdFind (pre ++ rest) = mdFind rest := by
  induction pre with
  | nil => rfl
  | cons c p ih =>
    have hc : c ≠ '!' := h c (List.mem_cons_self ..)
    simp only [List.cons_append, mdFind, if_neg hc]
    exact ih (fun d hd => h d (List.mem_cons_of_mem _ hd))

theorem mdFind_eq_none_of_no_bang (s : Str) (h : ∀ c ∈ s, c ≠ '!') :
    mdFind s = none := by
  have := mdFind_append_of_no_bang s [] h
  simpa using this

theorem findCloseParen_closed (url rest : Str)
    (h : ∀ c ∈ url, c ≠ ')' ∧ isLineTerm c = false) :
    findCloseParen (url ++ ')' :: rest) = some url := by
  induction url with
  | nil => rfl
  | cons c u ih =>
    obtain ⟨hc, hl⟩ := h c (List.mem_cons_self ..)
    simp only [List.cons_append, findCloseParen, if_neg hc, hl, if_neg Bool.false_ne_true,
      Bool.false_eq_true, if_false]
    rw [List.append_eq, ih (fun d hd => h d (List.mem_cons_of_mem _ hd))]
    rfl

theorem mdAfterBracket_closed (alt b g : Str)
    (halt : ∀ c ∈ alt, c ≠ ']' ∧ isLineTerm c = false)
    (hb : findCloseParen b = some g) :
    mdAfterBracket (alt ++ ']' :: '(' :: b) = some g := by
  induction alt with
  | nil => simp [mdAfterBracket, hb]
  | cons c a ih =>
    obtain ⟨hc, hl⟩ := halt c (List.mem_cons_self ..)
    simp only [List.cons_append, mdAfterBracket, if_neg hc, hl, Bool.false_eq_true, if_false]
    exact ih (fun d hd => halt d (List.mem_cons_of_mem _ hd))

/-- **C1.** `extractImage` applies its rules in strict priority order with
first match winning: every content string containing a well-formed markdown
image `![alt](url)` — well-formed meaning the alt text contains no `]` and no
line terminator and the url contains no `)` and no line terminator, with no
`!` in the preceding prose — extracts exactly the URL group `url`, whatever
else (in particular a separate bare image URL) surrounds it; the markdown
link always beats a bare URL occurring after it. -/
theorem extractImage_markdown_first (pre alt url post : Str)
    (hpre : ∀ c ∈ pre, c ≠ '!')
    (halt : ∀ c ∈ alt, c ≠ ']' ∧ isLineTerm c = false)
    (hurl : ∀ c ∈ url, c ≠ ')' ∧ isLineTerm c = false) :
    extractImageFromContent
      (pre ++ str "![" ++ alt ++ str "](" ++ url ++ str ")" ++ post) = some url := by
  have hstr1 : str "![" = ['!', '['] := rfl
  have hstr2 : str "](" = [']', '('] := rfl
  have hstr3 : str ")" = [')'] := rfl
  have hmd : mdFind (pre ++ str "![" ++ alt ++ str "](" ++ url ++ str ")" ++ post)
      = some url := by
    rw [hstr1, hstr2, hstr3]
    rw [show pre ++ ['!', '['] ++ alt ++ [']', '('] ++ url ++ [')'] ++ post
          = pre ++ ('!' :: '[' :: (alt ++ (']' :: '(' :: (url ++ ')' :: post)))) by simp]
    rw [mdFind_append_of_no_bang pre _ hpre]
    simp only [mdFind, if_pos rfl]
    rw [mdAfterBracket_closed alt _ url halt (findCloseParen_closed url post hurl)]
    simp
  have hne : pre ++ str "![" ++ alt ++ str "](" ++ url ++ str ")" ++ post ≠ [] := by
    rw [hstr1]
    simp
  rw [extractImageFromContent, if_neg hne, hmd]

/-- Witness for C1: content holding both a markdown image link and a separate
bare image URL yields the markdown URL. -/
theorem extractImage_markdown_first_witness :
    extractImageFromContent
      (str "see " ++ str "![" ++ str "cat" ++ str "](" ++ str "http://h/c.png"
        ++ str ")" ++ str " and http://h/other.png too")
      = some (str "http://h/c.png") :=
  extractImage_markdown_first (str "see ") (str "cat") (str "http://h/c.png")
    (str " and http://h/other.png too")
    (by decide) (by decide) (by decide)

theorem splitLit_eq_append {lit s r : Str} (h : splitLit lit s = some r) :
    s = lit ++ r := by
  induction lit generalizing s with
  | nil =>
    simp only [splitLit, Option.some_inj] at h
    simp [h]
  | cons l ls ih =>
    match s with
    | [] => simp [splitLit] at h
    | c :: cs =>
      by_cases hc : l = c
      · subst hc
        simp only [splitLit, if_pos rfl] at h
        simpa using ih h
      · simp [splitLit, hc] at h

theorem splitLitCI_exists_append {lit s r : Str} (h : splitLitCI lit s = some r) :
    ∃ p, s = p ++ r ∧ p.length = lit.length := by
  induction lit generalizing s with
  | nil =>
    refine ⟨[], ?_⟩
    simp only [splitLitCI, Option.some_inj] at h
    simp [h]
  | cons l ls ih =>
    match s with
    | [] => simp [splitLitCI] at h
    | c :: cs =>
      by_cases hc : lowerChar l = lowerChar c
      · simp only [splitLitCI, if_pos hc] at h
        obtain ⟨p, hp, hlen⟩ := ih h
        exact ⟨c :: p, by simp [hp], by simp [hlen]⟩
      · simp [splitLitCI, hc] at h

theorem eq_colon_of_lowerChar {c : Char} (h : lowerChar c = ':') : c = ':' := by
  unfold lowerChar at h
  split at h <;> first
    | exact absurd h (by decide)
    | exact h

theorem splitLitCI_colon_eq_none {s : Str} (h : ':' ∉ s) :
    splitLitCI (str "://") s = none := by
  match s with
  | [] => rfl
  | c :: cs =>
    have hc : ¬ lowerChar ':' = lowerChar c := by
      intro he
      exact h (by rw [eq_colon_of_lowerChar he.symm]; exact List.mem_cons_self ..)
    simp [str, splitLitCI, hc]

theorem urlMatchAt_eq_none_of_no_colon (s : Str) (h : ':' ∉ s) :
    urlMatchAt s = none := by
  rw [urlMatchAt]
  cases h1 : splitLitCI (str "http") s with
  | none => rfl
  | some r1 =>
    obtain ⟨p1, hp1, -⟩ := splitLitCI_exists_append h1
    have hr1 : ':' ∉ r1 := fun hc => h (by rw [hp1]; exact List.mem_append_right _ hc)
    have h2 : splitLitCI (str "://") (if optS r1 then r1.tail else r1) = none := by
      apply splitLitCI_colon_eq_none
      split
      · exact fun hc => hr1 (List.mem_of_mem_tail hc)
      · exact hr1
    simp only [h2]

theorem urlFind_eq_none_of_no_colon (s : Str) (h : ':' ∉ s) :
    urlFind s = none := by
  induction s with
  | nil => rfl
  | cons c cs ih =>
    rw [urlFind, urlMatchAt_eq_none_of_no_colon _ h]
    exact ih (fun hc => h (List.mem_cons_of_mem _ hc))

theorem dataUriMatchAt_eq_none_of_no_colon (s : Str) (h : ':' ∉ s) :
    dataUriMatchAt s = none := by
  rw [dataUriMatchAt]
  cases h1 : splitLit (str "data:image/") s with
  | none => rfl
  | some r1 =>
    exfalso
    have := splitLit_eq_append h1
    apply h
    rw [this]
    apply List.mem_append_left
    decide

theorem dataUriFind_eq_none_of_no_colon (s : Str) (h : ':' ∉ s) :
    dataUriFind s = none := by
  induction s with
  | nil => rfl
  | cons c cs ih =>
    rw [dataUriFind, dataUriMatchAt_eq_none_of_no_colon _ h]
    exact ih (fun hc => h (List.mem_cons_of_mem _ hc))

theorem startsWith_exists_append {lit s : Str} (h : startsWith lit s = true) :
    ∃ r, s = lit ++ r := by
  induction lit generalizing s with
  | nil => exact ⟨s, rfl⟩
  | cons l ls ih =>
    match s with
    | [] => simp [startsWith] at h
    | c :: cs =>
      simp only [startsWith, Bool.and_eq_true, decide_eq_true_eq] at h
      obtain ⟨rfl, h2⟩ := h
      obtain ⟨r, hr⟩ := ih h2
      exact ⟨r, by simp [hr]⟩

theorem mem_of_mem_trim {c : Char} {s : Str} (h : c ∈ trim s) : c ∈ s := by
  unfold trim at h
  rw [List.mem_reverse] at h
  have h1 := (List.dropWhile_sublist _).mem h
  rw [List.mem_reverse] at h1
  exact (List.dropWhile_sublist _).mem h1

theorem filter_dropWhile_not (p : Char → Bool) (s : Str) :
    (s.dropWhile p).filter (fun c => !p c) = s.filter (fun c => !p c) := by
  induction s with
  | nil => rfl
  | cons c cs ih =>
    by_cases hc : p c = true
    · simp [List.dropWhile_cons, List.filter_cons, hc, ih]
    · simp [List.dropWhile_cons, List.filter_cons, hc]

theorem filter_trim_not_ws (s : Str) :
    (trim s).filter (fun c => !jsWhitespace c) = s.filter (fun c => !jsWhitespace c) := by
  unfold trim
  rw [List.filter_reverse, filter_dropWhile_not, List.filter_reverse,
    filter_dropWhile_not]
  simp

/-- **C2.** For every input whose whitespace-stripped form consists entirely
of base64-alphabet characters, `extractImage` yields
`data:image/png;base64,<stripped>` when the stripped form is longer than 100
characters and `null` otherwise (none of rules 1–3 or the http fallback can
match such content). -/
theorem extractImage_raw_base64 (content : Str)
    (h : ∀ c ∈ content, base64Char c ∨ jsWhitespace c) :
    extractImageFromContent content =
      if 100 < (content.filter (fun c => !jsWhitespace c)).length then
        some (str "data:image/png;base64," ++ content.filter (fun c => !jsWhitespace c))
      else none := by
  have hbang : ∀ c ∈ content, c ≠ '!' := by
    intro c hc he
    subst he
    rcases h _ hc with h' | h' <;> simp [base64Char, jsWhitespace] at h'
  have hcolon : ':' ∉ content := by
    intro hc
    rcases h _ hc with h' | h' <;> simp [base64Char, jsWhitespace] at h'
  by_cases hnil : content = []
  · subst hnil
    simp [extractImageFromContent]
  · rw [extractImageFromContent, if_neg hnil, mdFind_eq_none_of_no_bang _ hbang,
      urlFind_eq_none_of_no_colon _ hcolon, dataUriFind_eq_none_of_no_colon _ hcolon]
    have hclean : (trim content).filter (fun c => !jsWhitespace c)
        = content.filter (fun c => !jsWhitespace c) := filter_trim_not_ws content
    have hall : (content.filter (fun c => !jsWhitespace c)).all base64Char = true := by
      rw [List.all_eq_true]
      intro c hc
      rw [List.mem_filter] at hc
      rcases h _ hc.1 with h' | h'
      · exact h'
      · exact absurd h' (by simpa using hc.2)
    have hhttp1 : startsWith (str "http://") (trim content) = false := by
      by_contra hcon
      rw [Bool.not_eq_false] at hcon
      obtain ⟨r, hr⟩ := startsWith_exists_append hcon
      exact hcolon (mem_of_mem_trim
        (by rw [hr]; exact List.mem_append_left _ (by decide)))
    have hhttp2 : startsWith (str "https://") (trim content) = false := by
      by_contra hcon
      rw [Bool.not_eq_false] at hcon
      obtain ⟨r, hr⟩ := startsWith_exists_append hcon
      exact hcolon (mem_of_mem_trim
        (by rw [hr]; exact List.mem_append_left _ (by decide)))
    simp only [hclean, hhttp1, hhttp2]
    by_cases hlen : 100 < (content.filter (fun c => !jsWhitespace c)).length
    · have hne : content.filter (fun c => !jsWhitespace c) ≠ [] := by
        intro hempty
        rw [hempty] at hlen
        simp at hlen
      rw [if_pos ⟨hlen, hne, hall⟩, if_pos hlen]
    · rw [if_neg (fun hcon => hlen hcon.1), if_neg hlen]
      simp

/-- Witness for C2: 101 `A`s produce a synthesized data URI; 100 `A`s produce
null. -/
theorem extractImage_raw_base64_witness :
    extractImageFromContent (List.replicate 101 'A')
        = some (str "data:image/png;base64," ++ List.replicate 101 'A')
      ∧ extractImageFromContent (List.replicate 100 'A') = none := by
  constructor
  · have h := extractImage_raw_base64 (List.replicate 101 'A') (by decide)
    simpa using h
  · have h := extractImage_raw_base64 (List.replicate 100 'A') (by decide)
    simpa using h

/-! ## The streaming SSE decoder (`generateImage`, streaming branch)

The loop reads chunks, appends them to `rawBuffer` and `lineBuffer`, and
repeatedly splits complete lines (up to `\n`) off `lineBuffer`, handing each
`data:`-prefixed line (trimmed, prefix stripped) to `appendDelta`; after the
stream ends the remaining `lineBuffer` is given the same treatment.
`JSON.parse` composed with the `choices?.[0]?.delta?.content` projection and
the truthiness test is abstracted as `parse : Str → Option Str` (returning
the appended text exactly when the frame parses and the delta is truthy). -/

/-- Split a buffer into its complete lines (before each `\n`, in order) and
the trailing remainder after the last `\n`. -/
def splitLines : Str → List Str × Str
  | [] => ([], [])
  | c :: cs =>
    let (ls, r) := splitLines cs
    if c = '\n' then ([] :: ls, r)
    else
      match ls with
      | [] => ([], c :: r)
      | l :: ls' => ((c :: l) :: ls', r)

/-- `line.replace(/^data:\s*/, '')` after a successful `startsWith('data:')`
test: drop the prefix and the whitespace run after it. -/
def stripDataPrefix (line : Str) : Str :=
  (line.drop 5).dropWhile jsWhitespace

/-- `appendDelta(dataLine)`: ignore empty payloads and the `[DONE]`
terminator; otherwise parse and return the truthy delta content, returning
nothing for malformed frames. -/
def appendDelta (parse : Str → Option Str) (dataLine : Str) : Str :=
  if dataLine = [] ∨ dataLine = str "[DONE]" then []
  else
    match parse dataLine with
    | some delta => delta
    | none => []

/-- Handling of one complete line of the stream: trim it, skip it unless it
starts with `data:`, then strip the prefix and feed `appendDelta`. -/
def handleLine (parse : Str → Option Str) (line : Str) : Str :=
  let t := trim line
  if startsWith (str "data:") t then appendDelta parse (stripDataPrefix t)
  else []

/-- The decoder state: the unterminated-line buffer and the accumulated
content (`rawBuffer` is carried by `generateImage` itself for the fallback). -/
structure SSEState where
  lineBuffer : Str
  content : Str
deriving DecidableEq

/-- Processing of one read chunk: append it to the line buffer, split off and
handle every complete line, and keep the remainder buffered. -/
def feedChunk (parse : Str → Option Str) (st : SSEState) (chunk : Str) : SSEState :=
  let buf := st.lineBuffer ++ chunk
  let (ls, r) := splitLines buf
  { lineBuffer := r
    content := st.content ++ (ls.map (handleLine parse)).flatten }

/-- The whole streaming loop (lines 893–931): fold the chunks through
`feedChunk`, then handle the final unterminated line. -/
def sseDecode (parse : Str → Option Str) (chunks : List Str) : Str :=
  let final := chunks.foldl (feedChunk parse) ⟨[], []⟩
  final.content ++ handleLine parse final.lineBuffer

/-- Specification-side decoding: handle every line of the complete body (the
lines before each `\n` and the final segment) in order. -/
def sseLineSpec (parse : Str → Option Str) (body : Str) : Str :=
  let (ls, r) := splitLines body
  (((ls ++ [r]).map (handleLine parse)).flatten)

theorem splitLines_snd_no_newline (s : Str) : '\n' ∉ (splitLines s).2 := by
  induction s with
  | nil => simp [splitLines]
  | cons c cs ih =>
    rw [splitLines]
    rcases hls : splitLines cs with ⟨ls, r⟩
    rw [hls] at ih
    by_cases hc : c = '\n'
    · simpa [hc] using ih
    · match ls with
      | [] =>
        simp only [if_neg hc]
        intro hmem
        rcases List.mem_cons.mp hmem with h1 | h1
        · exact hc h1.symm
        · exact ih h1
      | l :: ls' => simpa [hc] using ih

theorem splitLines_of_no_newline (s : Str) (h : '\n' ∉ s) :
    splitLines s = ([], s) := by
  induction s with
  | nil => rfl
  | cons c cs ih =>
    have hc : ¬ c = '\n' := fun he => h (he ▸ List.mem_cons_self ..)
    have ihe := ih (fun hm => h (List.mem_cons_of_mem _ hm))
    rw [splitLines, ihe]
    simp [hc]

theorem splitLines_append (a b : Str) :
    splitLines (a ++ b) =
      ((splitLines a).1 ++ (splitLines ((splitLines a).2 ++ b)).1,
        (splitLines ((splitLines a).2 ++ b)).2) := by
  induction a with
  | nil => simp [splitLines]
  | cons c a' ih =>
    rcases hsa : splitLines a' with ⟨ls', r'⟩
    by_cases hc : c = '\n'
    · subst hc
      simp only [List.cons_append, splitLines, List.append_eq]
      rw [ih, hsa]
      simp
    · match ls' with
      | [] =>
        rcases hsb : splitLines (r' ++ b) with ⟨lsb, rb⟩
        have ih' : splitLines (a' ++ b) = (lsb, rb) := by
          rw [ih, hsa]
          simp [hsb]
        match lsb, rb, hsb with
        | [], rb, hsb =>
          simp [List.cons_append, splitLines, hsa, ih', hsb, if_neg hc]
        | lb :: lsb', rb, hsb =>
          simp [List.cons_append, splitLines, hsa, ih', hsb, if_neg hc]
      | l :: ls'' =>
        simp only [List.cons_append, splitLines, List.append_eq]
        rw [ih, hsa]
        simp [hc]

theorem feedChunk_content (parse : Str → Option Str) (st : SSEState) (c : Str) :
    (feedChunk parse st c).content
      = st.content ++ ((splitLines (st.lineBuffer ++ c)).1.map (handleLine parse)).flatten := by
  rcases h : splitLines (st.lineBuffer ++ c) with ⟨ls, r⟩
  simp [feedChunk, h]

theorem feedChunk_lineBuffer (parse : Str → Option Str) (st : SSEState) (c : Str) :
    (feedChunk parse st c).lineBuffer = (splitLines (st.lineBuffer ++ c)).2 := by
  rcases h : splitLines (st.lineBuffer ++ c) with ⟨ls, r⟩
  simp [feedChunk, h]

theorem sseLineSpec_append (parse : Str → Option Str) (a b : Str) :
    sseLineSpec parse (a ++ b)
      = ((splitLines a).1.map (handleLine parse)).flatten
        ++ sseLineSpec parse ((splitLines a).2 ++ b) := by
  unfold sseLineSpec
  rw [splitLines_append a b]
  simp

theorem sseDecode_foldl (parse : Str → Option Str) (chunks : List Str)
    (st : SSEState) (hnb : '\n' ∉ st.lineBuffer) :
    (chunks.foldl (feedChunk parse) st).content
      ++ handleLine parse (chunks.foldl (feedChunk parse) st).lineBuffer
    = st.content ++ sseLineSpec parse (st.lineBuffer ++ chunks.flatten) := by
  induction chunks generalizing st with
  | nil =>
    simp [sseLineSpec, splitLines_of_no_newline _ hnb]
  | cons c cs ih =>
    rw [List.foldl_cons]
    have hnb' : '\n' ∉ (feedChunk parse st c).lineBuffer := by
      rw [feedChunk_lineBuffer]
      exact splitLines_snd_no_newline _
    rw [ih _ hnb', feedChunk_content, feedChunk_lineBuffer, List.flatten_cons,
      show st.lineBuffer ++ (c ++ cs.flatten) = (st.lineBuffer ++ c) ++ cs.flatten from
        (List.append_assoc ..).symm,
      sseLineSpec_append parse (st.lineBuffer ++ c) cs.flatten]
    simp

/-- **C3.** The streaming SSE decoder is chunking-invariant: for every way of
splitting a response body into read chunks, the accumulated content equals
the in-order concatenation of the handled `data:` lines of the whole body
(each complete line — terminated by a newline or by the end of the stream —
trimmed, filtered on the `data:` prefix, stripped, with `[DONE]` and
malformed frames contributing nothing); a line prefix spanning two chunks is
buffered and only handled once the full line is available. -/
theorem sseDecode_chunking_invariant (parse : Str → Option Str) (chunks : List Str) :
    sseDecode parse chunks = sseLineSpec parse chunks.flatten := by
  have h := sseDecode_foldl parse chunks ⟨[], []⟩ (by simp)
  simpa [sseDecode] using h

/-! ## JSON values

`JSON.parse` is a host facility, abstracted as a parameter
`parseJson : Str → Option Json` (`none` models a parse exception). The
projections, truthiness tests and `JSON.stringify`/`String(...)` coercions
applied to parsed values are translated from the source. -/

inductive Json where
  | null
  | bool (b : Bool)
  | num (n : Int)
  | str (s : Str)
  | arr (elems : List Json)
  | obj (fields : List (Str × Json))

/-- JavaScript truthiness of a JSON value. -/
def Json.truthy : Json → Bool
  | .null => false
  | .bool b => b
  | .num n => n ≠ 0
  | .str s => s ≠ []
  | .arr _ => true
  | .obj _ => true

/-- Property access `j.k` (yielding `undefined`, i.e. `none`, when absent or
when `j` is not an object). -/
def Json.getField : Json → Str → Option Json
  | .obj fields, k => (fields.find? (fun f => f.1 = k)).map (·.2)
  | _, _ => none

/-- Index access `j[i]` on arrays. -/
def Json.getIndex : Json → Nat → Option Json
  | .arr xs, i => xs.get? i
  | _, _ => none

/-- Keep a value only when truthy (the `||` chains of the source). -/
def truthyOpt (o : Option Json) : Option Json :=
  o.bind (fun j => if j.truthy then some j else none)

/-- A hexadecimal digit character. -/
def hexDigit (n : Nat) : Char :=
  if n < 10 then Char.ofNat (48 + n) else Char.ofNat (87 + n)

/-- `JSON.stringify` escaping of one string character. -/
def escapeChar (c : Char) : Str :=
  if c = '"' then ['\\', '"']
  else if c = '\\' then ['\\', '\\']
  else if c = '\n' then ['\\', 'n']
  else if c = '\r' then ['\\', 'r']
  else if c = '\t' then ['\\', 't']
  else if c = '\x08' then ['\\', 'b']
  else if c = '\x0c' then ['\\', 'f']
  else if c.toNat < 0x20 then
    ['\\', 'u', '0', '0', hexDigit (c.toNat / 16), hexDigit (c.toNat % 16)]
  else [c]

/-- A `JSON.stringify` quoted string. -/
def quoteStr (s : Str) : Str :=
  '"' :: (s.map escapeChar).flatten ++ ['"']

mutual

/-- `JSON.stringify` over the JSON model (numbers are modelled as integers). -/
def stringify : Json → Str
  | .null => str "null"
  | .bool true => str "true"
  | .bool false => str "false"
  | .num n => (toString n).toList
  | .str s => quoteStr s
  | .arr xs => '[' :: stringifyArr xs ++ [']']
  | .obj fs => Char.ofNat 123 :: stringifyObj fs ++ [Char.ofNat 125]

def stringifyArr : List Json → Str
  | [] => []
  | [x] => stringify x
  | x :: xs => stringify x ++ ',' :: stringifyArr xs

def stringifyObj : List (Str × Json) → Str
  | [] => []
  | [(k, v)] => quoteStr k ++ ':' :: stringify v
  | (k, v) :: fs => quoteStr k ++ ':' :: stringify v ++ ',' :: stringifyObj fs

end

mutual

/-- The JavaScript `String(...)` coercion of a JSON value (the form a value
takes when concatenated into message text). -/
def jsString : Json → Str
  | .null => str "null"
  | .bool true => str "true"
  | .bool false => str "false"
  | .num n => (toString n).toList
  | .str s => s
  | .arr xs => jsStringArr xs
  | .obj _ => str "[object Object]"

/-- `Array.prototype.toString`: the elements' coercions joined by commas,
with `null` elements joining as the empty string. -/
def jsStringArr : List Json → Str
  | [] => []
  | [x] => jsStringElem x
  | x :: xs => jsStringElem x ++ ',' :: jsStringArr xs

def jsStringElem : Json → Str
  | .null => []
  | .bool b => jsString (.bool b)
  | .num n => jsString (.num n)
  | .str s => s
  | .arr xs => jsStringArr xs
  | .obj fs => jsString (.obj fs)

end

/-- `json.choices?.[0]?.delta?.content`, kept only when truthy: the delta
appended by `appendDelta` after a successful `JSON.parse`. -/
def deltaParse (parseJson : Str → Option Json) (s : Str) : Option Str :=
  (truthyOpt (((((parseJson s).bind (·.getField (str "choices"))).bind
      (·.getIndex 0)).bind (·.getField (str "delta"))).bind
        (·.getField (str "content")))).map jsString

/-- `j.choices?.[0]?.message?.content`. -/
def msgContent (j : Json) : Option Json :=
  (((j.getField (str "choices")).bind (·.getIndex 0)).bind
    (·.getField (str "message"))).bind (·.getField (str "content"))

/-- `(j.images && j.images[0])`. -/
def imagesHead (j : Json) : Option Json :=
  (j.getField (str "images")).bind fun im =>
    if im.truthy then im.getIndex 0 else none

/-- `(j.data && (j.data[0]?.b64_json || j.data[0]?.url))`. -/
def dataHead (j : Json) : Option Json :=
  (j.getField (str "data")).bind fun d =>
    if d.truthy then
      match truthyOpt ((d.getIndex 0).bind (·.getField (str "b64_json"))) with
      | some v => some v
      | none => (d.getIndex 0).bind (·.getField (str "url"))
    else none

/-- `json.error.message || json.error.error || JSON.stringify(json.error)`. -/
def errorMessage (e : Json) : Str :=
  match truthyOpt (e.getField (str "message")) with
  | some v => jsString v
  | none =>
    match truthyOpt (e.getField (str "error")) with
    | some v => jsString v
    | none => stringify e

/-- The content chain of the raw-buffer JSON fallback (lines 946–951):
`choices[0].message.content || b64_json || images[0] ||
(data[0].b64_json || data[0].url) || JSON.stringify(json)`. -/
def rawJsonContent (j : Json) : Str :=
  match truthyOpt (msgContent j) <|> truthyOpt (j.getField (str "b64_json"))
      <|> truthyOpt (imagesHead j) <|> truthyOpt (dataHead j) with
  | some v => jsString v
  | none => stringify j

/-- The non-streaming content chain (lines 964–968):
`choices[0].message.content || b64_json || (images && images[0]) || ''`. -/
def nonStreamContent (j : Json) : Str :=
  match truthyOpt (msgContent j) <|> truthyOpt (j.getField (str "b64_json"))
      <|> truthyOpt (imagesHead j) with
  | some v => jsString v
  | none => []

/-- The post-stream resilience fallback (lines 933–962): when the delta
accumulator is empty and the raw buffer is not, re-scan the raw buffer
line-by-line for `data:` frames; if still empty, parse the whole buffer as a
single JSON object, throwing the extracted message when it encodes a truthy
`error` (a `.error` result models the `throw`), reading the content chain
otherwise, and falling back to the trimmed raw buffer when the buffer is not
valid JSON.  A parsed `null` also resolves to the trimmed buffer: property
access on `null` throws a `TypeError` that the enclosing `catch` turns into
`rawBuffer.trim()`. -/
def finalizeStream (parseJson : Str → Option Json) (content rawBuffer : Str) :
    Except Str Str :=
  if content = [] ∧ rawBuffer ≠ [] then
    let content2 := sseLineSpec (deltaParse parseJson) rawBuffer
    if content2 = [] then
      match parseJson rawBuffer with
      | some json =>
        match json with
        | .null => .ok (trim rawBuffer)
        | _ =>
          match json.getField (str "error") with
          | some e =>
            if e.truthy then .error (errorMessage e)
            else .ok (rawJsonContent json)
          | none => .ok (rawJsonContent json)
      | none => .ok (trim rawBuffer)
    else .ok content2
  else .ok content

/-! ## The generation client (`generateImage`)

The global mutable state touched by a generation — the `isGenerating` busy
flag and the settings record (whose `referenceImages` list the success path
may clear) — is threaded explicitly as `GState`.  The network is an oracle
`FetchOutcome` (a thrown network error, or a response with its `ok` flag,
status and body chunks); the list of issued requests is returned so that
busy-gated calls can be shown to perform no I/O. -/

structure HistoryEntry where
  url : Str
  prompt : Str
  time : Str
deriving DecidableEq

/-- The persisted settings record (`defaultSettings` lists its fields). -/
structure Settings where
  apiUrl : Str
  apiKey : Str
  model : Str
  size : Str
  stream : Bool
  promptPrefix : Str
  referenceImages : List Str
  generatedHistory : List HistoryEntry
  fixReferenceImages : Bool
  enableInline : Bool
  promptImageCache : List (Str × Str)
deriving DecidableEq

/-- The process-wide mutable state: the busy flag and the settings. -/
structure GState where
  isGenerating : Bool
  settings : Settings
deriving DecidableEq

inductive ContentPart where
  | text (text : Str)
  | imageUrl (url : Str)
deriving DecidableEq

inductive MessageContent where
  | strContent (s : Str)
  | parts (l : List ContentPart)
deriving DecidableEq

structure ChatMessage where
  role : Str
  content : MessageContent
deriving DecidableEq

/-- `buildMessages(prompt, images)`: the single user turn, with the content
list collapsed to a bare string when it is exactly one text part. -/
def buildMessages (prompt : Str) (images : List Str) : List ChatMessage :=
  let content := (if prompt ≠ [] then [ContentPart.text prompt] else [])
      ++ images.map ContentPart.imageUrl
  [{ role := str "user"
     content :=
       match content with
       | [ContentPart.text t] => MessageContent.strContent t
       | _ => MessageContent.parts content }]

/-- The request body; `none` in `model`/`size` models the key being deleted
from the object (`requestBody[key] === undefined && delete requestBody[key]`). -/
structure RequestBody where
  model : Option Str
  messages : List ChatMessage
  stream : Bool
  size : Option Str
deriving DecidableEq

/-- The trailing `/v1` (or `/v1/...`) suffix test of `normalizeApiUrl`
(the regex `\/v1(?:\/.*)?$/i`). -/
def v1TailAt : Str → Bool
  | '/' :: c :: '1' :: rest =>
    (lowerChar c = 'v') &&
      (match rest with
       | [] => true
       | '/' :: t => t.all (fun d => !isLineTerm d)
       | _ => false)
  | _ => false

/-- Removal of the first (leftmost) match of `\/v1(?:\/.*)?$/i`. -/
def stripV1 : Str → Str
  | [] => []
  | c :: rest => if v1TailAt (c :: rest) then [] else c :: stripV1 rest

/-- `url.replace(/\/+$/, '')`: strip the trailing run of slashes. -/
def stripTrailingSlashes (s : Str) : Str :=
  (s.reverse.dropWhile (· = '/')).reverse

/-- `normalizeApiUrl(rawUrl)`. -/
def normalizeApiUrl (rawUrl : Str) : Str :=
  let url := trim rawUrl
  if url = [] then []
  else stripV1 (stripTrailingSlashes url)

/-- The network oracle: `fetch` either throws or yields a response. -/
inductive FetchOutcome where
  | netError
  | response (ok : Bool) (status : Nat) (chunks : List Str)

/-- The observable outcome of a `generateImage` call: its return value, the
final global state, and the requests actually issued. -/
structure GenResult where
  result : Option Str
  state : GState
  requests : List RequestBody
deriving DecidableEq

/-- `clearAllImages()`: `saveSetting('referenceImages', [])`. -/
def clearAllImages (st : GState) : GState :=
  { st with settings := { st.settings with referenceImages := [] } }

/-- The prompt-prefix application (`settings.promptPrefix` non-empty and with
non-empty trim prepends `prefix + ", "`). -/
def finalPromptOf (settings : Settings) (prompt : Str) : Str :=
  if settings.promptPrefix ≠ [] ∧ trim settings.promptPrefix ≠ [] then
    settings.promptPrefix ++ ',' :: ' ' :: prompt
  else prompt

/-- The request body sent by `generateImage` (empty `model`/`size` settings
leave the key deleted; the stream flag is always present). -/
def requestBodyOf (settings : Settings) (finalPrompt : Str) (images : List Str) :
    RequestBody :=
  { model := if settings.model = [] then none else some settings.model
    messages := buildMessages finalPrompt images
    stream := settings.stream
    size := if settings.size = [] then none else some settings.size }

/-- `generateImage(prompt, referenceImages)` (lines 835–987).  The busy and
configuration gates return `null` before any I/O; afterwards the `finally`
block releases the busy flag on every exit path, and a successful non-empty
result clears consumed reference images unless they are fixed. -/
def generateImage (parseJson : Str → Option Json) (fetchO : FetchOutcome)
    (st : GState) (prompt : Str) (referenceImages : Option (List Str)) : GenResult :=
  if st.isGenerating then { result := none, state := st, requests := [] }
  else
    let settings := st.settings
    if normalizeApiUrl settings.apiUrl = [] ∨ settings.apiKey = [] then
      { result := none, state := st, requests := [] }
    else
      let finalPrompt := finalPromptOf settings prompt
      let images := referenceImages.getD settings.referenceImages
      let requestBody := requestBodyOf settings finalPrompt images
      let finish : Option Str → GState → GenResult := fun res st' =>
        { result := res
          state := { st' with isGenerating := false }
          requests := [requestBody] }
      match fetchO with
      | .netError => finish none st
      | .response ok _status chunks =>
        if !ok then finish none st
        else if settings.stream then
          let content := sseDecode (deltaParse parseJson) chunks
          match finalizeStream parseJson content chunks.flatten with
          | .error _ => finish none st
          | .ok content' =>
            let st' := if content' ≠ [] ∧ images ≠ [] ∧ !settings.fixReferenceImages
              then clearAllImages st else st
            finish (some content') st'
        else
          match parseJson chunks.flatten with
          | none => finish none st
          | some data =>
            let content := nonStreamContent data
            let st' := if content ≠ [] ∧ images ≠ [] ∧ !settings.fixReferenceImages
              then clearAllImages st else st
            finish (some content) st'

/-! ## C4: the post-stream fallback -/

/-- Specification-side reading of the resilience fallback, following the
claim's order: re-scan the whole raw buffer line-by-line for `data:` frames;
if the accumulator is still empty, parse the raw buffer as one JSON object,
raising the error message when it encodes a (truthy) error and otherwise
taking content from the `choices[0].message.content`, `b64_json`,
`images[0]` or `data[0]` fields; when the buffer is not valid JSON (or is
the JSON `null`, on which property access throws), the trimmed raw buffer
itself becomes the content. -/
def specStreamFallback (parseJson : Str → Option Json) (rawBuffer : Str) :
    Except Str Str :=
  let rescanned := sseLineSpec (deltaParse parseJson) rawBuffer
  if rescanned ≠ [] then .ok rescanned
  else
    match parseJson rawBuffer with
    | some Json.null => .ok (trim rawBuffer)
    | some json =>
      match truthyOpt (json.getField (str "error")) with
      | some e => .error (errorMessage e)
      | none => .ok (rawJsonContent json)
    | none => .ok (trim rawBuffer)

/-- **C4.** In streaming mode, when the delta accumulator is empty after the
stream ends and the raw buffer is non-empty, the client behaves exactly as
the claim's fallback describes (`specStreamFallback`); when the accumulator
is non-empty or the buffer is empty, the accumulated content is returned
unchanged. -/
theorem finalizeStream_matches_fallback (parseJson : Str → Option Json)
    (content rawBuffer : Str) :
    (content = [] → rawBuffer ≠ [] →
      finalizeStream parseJson content rawBuffer = specStreamFallback parseJson rawBuffer)
    ∧ (content ≠ [] ∨ rawBuffer = [] →
      finalizeStream parseJson content rawBuffer = .ok content) := by
  constructor
  · intro hc hr
    subst hc
    rw [finalizeStream, if_pos ⟨rfl, hr⟩, specStreamFallback]
    by_cases h2 : sseLineSpec (deltaParse parseJson) rawBuffer = []
    · rw [if_pos h2, if_neg (by simpa using h2)]
      cases hp : parseJson rawBuffer with
      | none => rfl
      | some json =>
        cases json with
        | null => rfl
        | bool b =>
          cases he : (Json.bool b).getField (str "error") with
          | none => simp [truthyOpt, he]
          | some e =>
            by_cases ht : e.truthy
            · simp [truthyOpt, he, ht]
            · simp [truthyOpt, he, ht]
        | num n =>
          cases he : (Json.num n).getField (str "error") with
          | none => simp [truthyOpt, he]
          | some e =>
            by_cases ht : e.truthy
            · simp [truthyOpt, he, ht]
            · simp [truthyOpt, he, ht]
        | str s =>
          cases he : (Json.str s).getField (str "error") with
          | none => simp [truthyOpt, he]
          | some e =>
            by_cases ht : e.truthy
            · simp [truthyOpt, he, ht]
            · simp [truthyOpt, he, ht]
        | arr xs =>
          cases he : (Json.arr xs).getField (str "error") with
          | none => simp [truthyOpt, he]
          | some e =>
            by_cases ht : e.truthy
            · simp [truthyOpt, he, ht]
            · simp [truthyOpt, he, ht]
        | obj fs =>
          cases he : (Json.obj fs).getField (str "error") with
          | none => simp [truthyOpt, he]
          | some e =>
            by_cases ht : e.truthy
            · simp [truthyOpt, he, ht]
            · simp [truthyOpt, he, ht]
    · rw [if_neg h2, if_pos (by simpa using h2)]
  · intro h
    rw [finalizeStream, if_neg (by tauto)]

/-- Witness for C4: an all-`data:`-frame-free non-JSON buffer resolves to its
own trimmed text, and a non-empty accumulator passes through unchanged. -/
theorem finalizeStream_matches_fallback_witness :
    finalizeStream (fun _ => none) [] (str " hello ")
        = Except.ok (str "hello")
      ∧ finalizeStream (fun _ => none) (str "acc") (str "raw")
        = Except.ok (str "acc") := by
  constructor
  · have h := (finalizeStream_matches_fallback (fun _ => none) [] (str " hello ")).1
      rfl (by decide)
    rw [h]
    rw [show specStreamFallback (fun _ => none) (str " hello ")
        = Except.ok (trim (str " hello ")) from rfl]
    rfl
  · exact (finalizeStream_matches_fallback (fun _ => none) (str "acc") (str "raw")).2
      (Or.inl (by decide))

/-! ## C5: busy-gating and busy-flag release -/

/-- **C5.** A `generate()` call made while the busy flag is set returns null
immediately, issues no request, and leaves the whole state (settings,
reference images, cache, history and the flag itself) unchanged; and when a
generation actually starts (flag clear at entry), every exit path — success,
error or exception — leaves the busy flag released. -/
theorem generateImage_busy_gating (parseJson : Str → Option Json)
    (fetchO : FetchOutcome) (st : GState) (prompt : Str)
    (refs : Option (List Str)) :
    (st.isGenerating = true →
      generateImage parseJson fetchO st prompt refs
        = { result := none, state := st, requests := [] })
    ∧ (st.isGenerating = false →
      (generateImage parseJson fetchO st prompt refs).state.isGenerating = false) := by
  constructor
  · intro h
    simp [generateImage, h]
  · intro h
    rw [generateImage]
    rw [h]
    simp only [Bool.false_eq_true, if_false]
    split
    · exact h
    · rcases fetchO with _ | ⟨ok, status, chunks⟩
      · rfl
      · cases ok
        · rfl
        · by_cases hs : st.settings.stream = true
          · simp only [Bool.not_true, Bool.false_eq_true, if_false, hs, if_true]
            cases hfin : finalizeStream parseJson
                (sseDecode (deltaParse parseJson) chunks) chunks.flatten with
            | error e => rfl
            | ok c => rfl
          · rw [Bool.not_eq_true] at hs
            simp only [Bool.not_true, Bool.false_eq_true, if_false, hs]
            cases hp : parseJson chunks.flatten with
            | none => rfl
            | some data => rfl

/-- Witness for C5: a busy call is a frame-preserving no-op, and an idle call
(here one that fails its fetch) ends with the flag released. -/
theorem generateImage_busy_gating_witness :
    (generateImage (fun _ => none) FetchOutcome.netError
        ⟨true, ⟨str "http://h", str "k", [], [], true, [], [], [], false, true, []⟩⟩
        (str "p") none
      = { result := none
          state := ⟨true, ⟨str "http://h", str "k", [], [], true, [], [], [], false, true, []⟩⟩
          requests := [] })
    ∧ (generateImage (fun _ => none) FetchOutcome.netError
        ⟨false, ⟨str "http://h", str "k", [], [], true, [], [], [], false, true, []⟩⟩
        (str "p") none).state.isGenerating = false := by
  constructor
  · exact (generateImage_busy_gating (fun _ => none) FetchOutcome.netError
      ⟨true, ⟨str "http://h", str "k", [], [], true, [], [], [], false, true, []⟩⟩
      (str "p") none).1 rfl
  · exact (generateImage_busy_gating (fun _ => none) FetchOutcome.netError
      ⟨false, ⟨str "http://h", str "k", [], [], true, [], [], [], false, true, []⟩⟩
      (str "p") none).2 rfl

/-! ## C6: request construction -/

/-- **C6.** The request carries exactly one user-role message whose content
is the text part (present when the prompt is non-empty) followed by one
image part per reference image in order; a content of exactly one text-only
part collapses to the bare prompt string; the `model` and `size` keys are
absent exactly when those settings are empty, the stream flag is always
present, and a gated-through call issues exactly this request body. -/
theorem generateImage_request_construction (parseJson : Str → Option Json)
    (fetchO : FetchOutcome) (st : GState) (prompt : Str) (refs : Option (List Str))
    (images : List Str) :
    buildMessages prompt images
      = [{ role := str "user"
           content :=
             if prompt ≠ [] ∧ images = [] then MessageContent.strContent prompt
             else MessageContent.parts
               ((if prompt ≠ [] then [ContentPart.text prompt] else [])
                 ++ images.map ContentPart.imageUrl) }]
    ∧ ((requestBodyOf st.settings (finalPromptOf st.settings prompt) images).model = none
        ↔ st.settings.model = [])
    ∧ ((requestBodyOf st.settings (finalPromptOf st.settings prompt) images).size = none
        ↔ st.settings.size = [])
    ∧ (requestBodyOf st.settings (finalPromptOf st.settings prompt) images).stream
        = st.settings.stream
    ∧ (requestBodyOf st.settings (finalPromptOf st.settings prompt) images).messages
        = buildMessages (finalPromptOf st.settings prompt) images
    ∧ (st.isGenerating = false →
       ¬(normalizeApiUrl st.settings.apiUrl = [] ∨ st.settings.apiKey = []) →
       (generateImage parseJson fetchO st prompt refs).requests
         = [requestBodyOf st.settings (finalPromptOf st.settings prompt)
             (refs.getD st.settings.referenceImages)]) := by
  refine ⟨?_, ?_, ?_, rfl, rfl, ?_⟩
  · by_cases hp : prompt = []
    · cases images with
      | nil => simp [buildMessages, hp]
      | cons i is => simp [buildMessages, hp]
    · cases images with
      | nil => simp [buildMessages, hp]
      | cons i is => simp [buildMessages, hp]
  · rw [requestBodyOf]
    split <;> simp_all
  · rw [requestBodyOf]
    split <;> simp_all
  · intro h hcfg
    rw [generateImage, h]
    simp only [Bool.false_eq_true, if_false]
    rw [if_neg hcfg]
    rcases fetchO with _ | ⟨ok, status, chunks⟩
    · rfl
    · cases ok
      · rfl
      · by_cases hs : st.settings.stream = true
        · simp only [Bool.not_true, Bool.false_eq_true, if_false, hs, if_true]
          cases finalizeStream parseJson
              (sseDecode (deltaParse parseJson) chunks) chunks.flatten with
          | error e => rfl
          | ok c => rfl
        · rw [Bool.not_eq_true] at hs
          simp only [Bool.not_true, Bool.false_eq_true, if_false, hs]
          cases parseJson chunks.flatten with
          | none => rfl
          | some data => rfl

/-- Witness for C6 at a concrete state (one reference image, non-empty
prompt), exercising the gated-through request emission. -/
theorem generateImage_request_construction_witness :
    (generateImage (fun _ => none) FetchOutcome.netError
        ⟨false, ⟨str "http://h", str "k", str "m", [], false, [], [str "img1"], [],
          false, true, []⟩⟩
        (str "p") none).requests
      = [requestBodyOf
          ⟨str "http://h", str "k", str "m", [], false, [], [str "img1"], [],
            false, true, []⟩
          (finalPromptOf
            ⟨str "http://h", str "k", str "m", [], false, [], [str "img1"], [],
              false, true, []⟩ (str "p"))
          [str "img1"]] := by
  have h := (generateImage_request_construction (fun _ => none) FetchOutcome.netError
    ⟨false, ⟨str "http://h", str "k", str "m", [], false, [], [str "img1"], [],
      false, true, []⟩⟩
    (str "p") none [str "img1"]).2.2.2.2.2 rfl (by decide)
  exact h

/-! ## C10: the post-generation reference-image side effect -/

theorem generateImage_outcome (parseJson : Str → Option Json)
    (fetchO : FetchOutcome) (st : GState) (prompt : Str) (refs : Option (List Str)) :
    ((generateImage parseJson fetchO st prompt refs).result = none ∧
      (generateImage parseJson fetchO st prompt refs).state.settings = st.settings)
    ∨ ∃ content, (generateImage parseJson fetchO st prompt refs).result = some content ∧
      (generateImage parseJson fetchO st prompt refs).state.settings
        = (if content ≠ [] ∧ refs.getD st.settings.referenceImages ≠ []
              ∧ !st.settings.fixReferenceImages
           then clearAllImages st else st).settings := by
  by_cases hbusy : st.isGenerating = true
  · left
    rw [generateImage, if_pos hbusy]
    exact ⟨rfl, rfl⟩
  · rw [Bool.not_eq_true] at hbusy
    rw [generateImage, hbusy]
    simp only [Bool.false_eq_true, if_false]
    by_cases hcfg : normalizeApiUrl st.settings.apiUrl = [] ∨ st.settings.apiKey = []
    · left
      rw [if_pos hcfg]
      exact ⟨rfl, rfl⟩
    · rw [if_neg hcfg]
      rcases fetchO with _ | ⟨ok, status, chunks⟩
      · exact Or.inl ⟨rfl, rfl⟩
      · cases ok
        · exact Or.inl ⟨rfl, rfl⟩
        · by_cases hs : st.settings.stream = true
          · simp only [Bool.not_true, Bool.false_eq_true, if_false, hs, if_true]
            cases finalizeStream parseJson
                (sseDecode (deltaParse parseJson) chunks) chunks.flatten with
            | error e => exact Or.inl ⟨rfl, rfl⟩
            | ok c => exact Or.inr ⟨c, rfl, rfl⟩
          · rw [Bool.not_eq_true] at hs
            simp only [Bool.not_true, Bool.false_eq_true, if_false, hs]
            cases parseJson chunks.flatten with
            | none => exact Or.inl ⟨rfl, rfl⟩
            | some data => exact Or.inr ⟨nonStreamContent data, rfl, rfl⟩

/-- **C10.** A generation that consumed a non-empty reference-image list and
succeeded (non-null, non-empty content) clears the reference images when the
"fix reference images" setting is off; on failure, with no consumed images,
with empty content, or with the setting on, the list is left unchanged. -/
theorem generateImage_reference_clearing (parseJson : Str → Option Json)
    (fetchO : FetchOutcome) (st : GState) (prompt : Str) (refs : Option (List Str)) :
    ((∃ c, (generateImage parseJson fetchO st prompt refs).result = some c ∧ c ≠ [])
        ∧ refs.getD st.settings.referenceImages ≠ []
        ∧ st.settings.fixReferenceImages = false →
      (generateImage parseJson fetchO st prompt refs).state.settings.referenceImages = [])
    ∧ ((generateImage parseJson fetchO st prompt refs).result = none
        ∨ (generateImage parseJson fetchO st prompt refs).result = some []
        ∨ refs.getD st.settings.referenceImages = []
        ∨ st.settings.fixReferenceImages = true →
      (generateImage parseJson fetchO st prompt refs).state.settings.referenceImages
        = st.settings.referenceImages) := by
  rcases generateImage_outcome parseJson fetchO st prompt refs with
    ⟨hres, hset⟩ | ⟨content, hres, hset⟩
  · constructor
    · rintro ⟨⟨c, hc, -⟩, -, -⟩
      rw [hres] at hc
      exact absurd hc (by simp)
    · intro _
      rw [hset]
  · constructor
    · rintro ⟨⟨c, hc, hcne⟩, himg, hfix⟩
      rw [hres] at hc
      have hce : content = c := by
        simpa using hc
      subst hce
      rw [hset, if_pos ⟨hcne, himg, by simp [hfix]⟩]
      rfl
    · intro hdisj
      rcases hdisj with h1 | h1 | h1 | h1
      · rw [hres] at h1
        exact absurd h1 (by simp)
      · rw [hres] at h1
        have : content = [] := by
          simpa using h1
        rw [hset, if_neg (by simp [this])]
      · rw [hset, if_neg (by simp [h1])]
      · rw [hset, if_neg (by simp [h1])]

/-- Witness for C10: a successful non-streaming generation with one consumed
reference image and the fix setting off clears the list, and a failed one
leaves it in place. -/
theorem generateImage_reference_clearing_witness :
    (generateImage
          (fun _ => some (Json.obj [(str "b64_json", Json.str (str "QUJD"))]))
          (FetchOutcome.response true 200 [str "irrelevant"])
          ⟨false, ⟨str "http://h", str "k", [], [], false, [], [str "img1"], [],
            false, true, []⟩⟩
          (str "p") none).state.settings.referenceImages = []
      ∧ (generateImage (fun _ => none) FetchOutcome.netError
          ⟨false, ⟨str "http://h", str "k", [], [], false, [], [str "img1"], [],
            false, true, []⟩⟩
          (str "p") none).state.settings.referenceImages = [str "img1"] := by
  constructor
  · apply (generateImage_reference_clearing
        (fun _ => some (Json.obj [(str "b64_json", Json.str (str "QUJD"))]))
        (FetchOutcome.response true 200 [str "irrelevant"])
        ⟨false, ⟨str "http://h", str "k", [], [], false, [], [str "img1"], [],
          false, true, []⟩⟩
        (str "p") none).1
    have h0 : (generateImage
          (fun _ => some (Json.obj [(str "b64_json", Json.str (str "QUJD"))]))
          (FetchOutcome.response true 200 [str "irrelevant"])
          ⟨false, ⟨str "http://h", str "k", [], [], false, [], [str "img1"], [],
            false, true, []⟩⟩
          (str "p") none).result
        = some (nonStreamContent (Json.obj [(str "b64_json", Json.str (str "QUJD"))])) :=
      rfl
    have h1 : nonStreamContent (Json.obj [(str "b64_json", Json.str (str "QUJD"))])
        = jsString (Json.str (str "QUJD")) := rfl
    have h2 : jsString (Json.str (str "QUJD")) = str "QUJD" := by
      rw [jsString]
    refine ⟨⟨str "QUJD", ?_, by decide⟩, by decide, rfl⟩
    rw [h0, h1, h2]
  · apply (generateImage_reference_clearing (fun _ => none) FetchOutcome.netError
      ⟨false, ⟨str "http://h", str "k", [], [], false, [], [str "img1"], [],
        false, true, []⟩⟩
      (str "p") none).2
    left
    rfl

/-! ## The prompt-image cache and the inline marker engine

`promptImageCache` is a plain JavaScript object; it is modelled as an
insertion-ordered association list.  `Object.keys` follows the ECMAScript
own-property enumeration order: canonical array-index keys first in
ascending numeric order, then string keys in property-creation order —
this order decides which entry `delete cache[keys[0]]` removes. -/

/-- Numeric value of a digit string. -/
def keyNum (s : Str) : Nat :=
  s.foldl (fun acc c => acc * 10 + (c.toNat - 48)) 0

/-- The ECMAScript array-index test for a property key: a canonical numeric
string (digits only, no leading zero except `"0"` itself) whose value is
below 2^32 − 1. -/
def isArrayIndexKey (s : Str) : Bool :=
  s ≠ [] && s.all (fun c => '0' ≤ c && c ≤ '9') &&
    (match s with
     | '0' :: rest => rest = ([] : Str)
     | _ => true) &&
    keyNum s < 4294967295

/-- Insertion into a numerically sorted key list. -/
def insertAI (k : Str) : List Str → List Str
  | [] => [k]
  | h :: t => if keyNum k ≤ keyNum h then k :: h :: t else h :: insertAI k t

/-- Numeric sorting of the array-index keys. -/
def sortAI (l : List Str) : List Str := l.foldr insertAI []

/-- `Object.keys` in ECMAScript enumeration order. -/
def objKeys (c : List (Str × Str)) : List Str :=
  sortAI ((c.map Prod.fst).filter isArrayIndexKey)
    ++ (c.map Prod.fst).filter (fun k => !isArrayIndexKey k)

/-- Property read `cache[k]` (`none` = `undefined`). -/
def objGet (c : List (Str × Str)) (k : Str) : Option Str :=
  match c with
  | [] => none
  | e :: rest => if e.1 = k then some e.2 else objGet rest k

/-- Property write `cache[k] = v`: overwriting keeps the key's creation
position; a fresh key is appended. -/
def objSet (c : List (Str × Str)) (k v : Str) : List (Str × Str) :=
  match c with
  | [] => [(k, v)]
  | (k', v') :: rest => if k' = k then (k, v) :: rest else (k', v') :: objSet rest k v

/-- `delete cache[k]`. -/
def objDelete (c : List (Str × Str)) (k : Str) : List (Str × Str) :=
  match c with
  | [] => []
  | e :: rest => if e.1 = k then objDelete rest k else e :: objDelete rest k

/-! The string rewriting used by `getPromptCacheKey` and the inline scanner.
Each global regex replacement is written as a fuel-indexed scan (the fuel,
initially the string length, dominates every strictly-shrinking jump past a
match, keeping the recursion structural and executable). -/

/-- Match `<br\s*\/?>` (case-insensitively) at the head, returning the rest. -/
def tryBr : Str → Option Str
  | '<' :: c1 :: c2 :: rest =>
    if lowerChar c1 = 'b' ∧ lowerChar c2 = 'r' then
      let r2 := rest.dropWhile jsWhitespace
      let r3 := match r2 with
        | '/' :: t => t
        | _ => r2
      match r3 with
      | '>' :: r4 => some r4
      | _ => none
    else none
  | _ => none

def brReplaceF : Nat → Str → Str
  | 0, s => s
  | _, [] => []
  | fuel + 1, c :: rest =>
    match tryBr (c :: rest) with
    | some r => '\n' :: brReplaceF fuel r
    | none => c :: brReplaceF fuel rest

/-- `.replace(/<br\s*\/?>/gi, '\n')`. -/
def brReplace (s : Str) : Str := brReplaceF s.length s

/-- Match `&[^;]+;` at the head, returning the rest. -/
def tryEntity : Str → Option Str
  | '&' :: c :: rest =>
    if c = ';' then none
    else
      match (c :: rest).dropWhile (fun d => d ≠ ';') with
      | ';' :: r => some r
      | _ => none
  | _ => none

def entityStripF : Nat → Str → Str
  | 0, s => s
  | _, [] => []
  | fuel + 1, c :: rest =>
    match tryEntity (c :: rest) with
    | some r => entityStripF fuel r
    | none => c :: entityStripF fuel rest

/-- `.replace(/&[^;]+;/g, '')`: entity-like sequences are deleted outright. -/
def entityStrip (s : Str) : Str := entityStripF s.length s

def wsCollapseF : Nat → Str → Str
  | 0, s => s
  | _, [] => []
  | fuel + 1, c :: rest =>
    if jsWhitespace c then ' ' :: wsCollapseF fuel (rest.dropWhile jsWhitespace)
    else c :: wsCollapseF fuel rest

/-- `.replace(/\s+/g, ' ')`. -/
def wsCollapse (s : Str) : Str := wsCollapseF s.length s

/-- `getPromptCacheKey(prompt)`: `<br>` markup to newlines, entity sequences
removed, whitespace runs collapsed, trimmed, first 100 characters. -/
def getPromptCacheKey (prompt : Str) : Str :=
  (trim (wsCollapse (entityStrip (brReplace prompt)))).take 100

/-- `cachePromptImage(prompt, imageUrl)` (lines 1031–1041): insert under the
normalized key, then delete `keys[0]` when the object exceeds 50 keys. -/
def cachePromptImage (cache : List (Str × Str)) (prompt imageUrl : Str) :
    List (Str × Str) :=
  let key := getPromptCacheKey prompt
  let c := objSet cache key imageUrl
  let keys := objKeys c
  if keys.length > 50 then objDelete c (keys.headD []) else c

/-- `getCachedImage(prompt)`: `cache[key] || null`. -/
def getCachedImage (cache : List (Str × Str)) (prompt : Str) : Option Str :=
  match objGet cache (getPromptCacheKey prompt) with
  | some v => if v = [] then none else some v
  | none => none

def replaceAllLitF (pat rep : Str) : Nat → Str → Str
  | 0, s => s
  | _, [] => []
  | fuel + 1, c :: rest =>
    match splitLit pat (c :: rest) with
    | some r => rep ++ replaceAllLitF pat rep fuel r
    | none => c :: replaceAllLitF pat rep fuel rest

/-- Global replacement of a literal (non-empty) pattern. -/
def replaceAllLit (pat rep s : Str) : Str := replaceAllLitF pat rep s.length s

/-- The five entity decodings of the inline scanner's prompt cleaning
(`&lt; &gt; &amp; &quot; &#39;`, applied in source order). -/
def decodeCommonEntities (s : Str) : Str :=
  replaceAllLit (str "&#39;") ['\'']
    (replaceAllLit (str "&quot;") ['"']
      (replaceAllLit (str "&amp;") ['&']
        (replaceAllLit (str "&gt;") ['>']
          (replaceAllLit (str "&lt;") ['<'] s))))

/-- The marker-body cleaning of `processChatMessages` (lines 1076–1084):
`<br>` markup to newlines, the five common entities decoded, trimmed. -/
def cleanPromptOf (body : Str) : Str :=
  trim (decodeCommonEntities (brReplace body))

/-- The rendering decided for one marker occurrence by the scan: a cached
image displayed directly, or a clickable trigger (the generation client is
invoked only from a later click on a trigger, never by the scan itself). -/
inductive MarkerRender where
  | generated (url : Str)
  | trigger (safePrompt : Str)
deriving DecidableEq

/-- The replace-callback of `processChatMessages` for one marker body:
clean the prompt, render the cached image when the cache holds one, and a
trigger (with quotes entity-escaped) otherwise. -/
def processMarkerBody (cache : List (Str × Str)) (body : Str) : MarkerRender :=
  let cleanPrompt := cleanPromptOf body
  match getCachedImage cache cleanPrompt with
  | some img => MarkerRender.generated img
  | none => MarkerRender.trigger (replaceAllLit (str "\"") (str "&quot;") cleanPrompt)

/-! ## Lemmas about the object model -/

theorem objGet_objSet_self (c : List (Str × Str)) (k v : Str) :
    objGet (objSet c k v) k = some v := by
  induction c with
  | nil => simp [objGet, objSet]
  | cons e rest ih =>
    rcases e with ⟨k', v'⟩
    by_cases he : k' = k
    · simp [objSet, he, objGet]
    · simp only [objSet]
      rw [if_neg he]
      simp only [objGet]
      rw [if_neg he]
      exact ih

theorem objGet_eq_none_iff (c : List (Str × Str)) (k : Str) :
    objGet c k = none ↔ k ∉ c.map Prod.fst := by
  induction c with
  | nil => simp [objGet]
  | cons e rest ih =>
    rcases e with ⟨k', v'⟩
    rw [List.map_cons, List.mem_cons]
    by_cases he : k' = k
    · simp [objGet, he]
    · simp only [objGet]
      rw [if_neg he, ih]
      constructor
      · intro h hc
        rcases hc with hc | hc
        · exact he hc.symm
        · exact h hc
      · intro h hc
        exact h (Or.inr hc)

theorem objSet_fresh_append (c : List (Str × Str)) (k v : Str)
    (h : k ∉ c.map Prod.fst) : objSet c k v = c ++ [(k, v)] := by
  induction c with
  | nil => rfl
  | cons e rest ih =>
    rcases e with ⟨k', v'⟩
    rw [List.map_cons, List.mem_cons] at h
    push_neg at h
    simp only [objSet]
    rw [if_neg (fun hc => h.1 hc.symm)]
    rw [ih h.2]
    simp

theorem map_fst_objSet_present (c : List (Str × Str)) (k v : Str)
    (h : k ∈ c.map Prod.fst) :
    (objSet c k v).map Prod.fst = c.map Prod.fst := by
  induction c with
  | nil => simp at h
  | cons e rest ih =>
    rcases e with ⟨k', v'⟩
    rw [List.map_cons, List.mem_cons] at h
    by_cases he : k' = k
    · subst he
      simp [objSet]
    · simp only [objSet]
      rw [if_neg he]
      have hm : k ∈ rest.map Prod.fst := by
        rcases h with h1 | h1
        · exact absurd h1.symm he
        · exact h1
      simp [ih hm]

theorem length_objSet_present (c : List (Str × Str)) (k v : Str)
    (h : k ∈ c.map Prod.fst) : (objSet c k v).length = c.length := by
  have := congrArg List.length (map_fst_objSet_present c k v h)
  simpa using this

theorem mem_insertAI {a k : Str} {l : List Str} :
    a ∈ insertAI k l ↔ a = k ∨ a ∈ l := by
  induction l with
  | nil => simp [insertAI]
  | cons h t ih =>
    by_cases hc : keyNum k ≤ keyNum h
    · simp [insertAI, hc]
    · simp [insertAI, hc, ih]
      tauto

theorem mem_sortAI {a : Str} {l : List Str} : a ∈ sortAI l ↔ a ∈ l := by
  induction l with
  | nil => simp [sortAI]
  | cons h t ih =>
    simp only [sortAI, List.foldr_cons]
    rw [mem_insertAI]
    simp only [sortAI] at ih
    simp [ih]

theorem length_insertAI (k : Str) (l : List Str) :
    (insertAI k l).length = l.length + 1 := by
  induction l with
  | nil => rfl
  | cons h t ih =>
    by_cases hc : keyNum k ≤ keyNum h
    · simp [insertAI, hc]
    · simp [insertAI, hc, ih]

theorem length_sortAI (l : List Str) : (sortAI l).length = l.length := by
  induction l with
  | nil => rfl
  | cons h t ih =>
    simp only [sortAI, List.foldr_cons]
    rw [length_insertAI]
    simp only [sortAI] at ih
    simp [ih]

theorem length_filter_partition (p : Str → Bool) (l : List Str) :
    (l.filter p).length + (l.filter (fun a => !p a)).length = l.length := by
  induction l with
  | nil => rfl
  | cons h t ih =>
    by_cases hc : p h = true
    · simp [List.filter_cons, hc]
      omega
    · simp [List.filter_cons, hc]
      omega

theorem objKeys_length (c : List (Str × Str)) :
    (objKeys c).length = c.length := by
  rw [objKeys, List.length_append, length_sortAI, length_filter_partition]
  simp

theorem mem_objKeys {a : Str} {c : List (Str × Str)} (h : a ∈ objKeys c) :
    a ∈ c.map Prod.fst := by
  rcases List.mem_append.mp h with h1 | h1
  · exact List.mem_of_mem_filter (mem_sortAI.mp h1)
  · exact List.mem_of_mem_filter h1

theorem objDelete_eq_self_of_not_mem (c : List (Str × Str)) (k : Str)
    (h : k ∉ c.map Prod.fst) : objDelete c k = c := by
  induction c with
  | nil => rfl
  | cons e rest ih =>
    rcases e with ⟨k', v'⟩
    rw [List.map_cons, List.mem_cons] at h
    push_neg at h
    simp only [objDelete]
    rw [if_neg (fun hc => h.1 hc.symm), ih h.2]

theorem length_objDelete_of_mem (c : List (Str × Str)) (k : Str)
    (hnd : (c.map Prod.fst).Nodup) (h : k ∈ c.map Prod.fst) :
    (objDelete c k).length + 1 = c.length := by
  induction c with
  | nil => simp at h
  | cons e rest ih =>
    rcases e with ⟨k', v'⟩
    rw [List.map_cons, List.mem_cons] at h
    rw [List.map_cons, List.nodup_cons] at hnd
    by_cases he : k' = k
    · simp only [objDelete]
      rw [if_pos he]
      rw [objDelete_eq_self_of_not_mem rest k (he ▸ hnd.1)]
      simp
    · have hm : k ∈ rest.map Prod.fst := by
        rcases h with h1 | h1
        · exact absurd h1.symm he
        · exact h1
      simp only [objDelete]
      rw [if_neg he]
      simp only [List.length_cons]
      have := ih hnd.2 hm
      omega

theorem objGet_objDelete_ne (c : List (Str × Str)) (k dk : Str) (h : k ≠ dk) :
    objGet (objDelete c dk) k = objGet c k := by
  induction c with
  | nil => rfl
  | cons e rest ih =>
    rcases e with ⟨k', v'⟩
    by_cases hd : k' = dk
    · simp only [objDelete]
      rw [if_pos hd, ih]
      simp only [objGet]
      rw [if_neg (fun hc => h (by rw [← hc, hd]))]
    · simp only [objDelete]
      rw [if_neg hd]
      by_cases hek : k' = k
      · simp [objGet, hek]
      · simp only [objGet]
        rw [if_neg hek, if_neg hek]
        exact ih

theorem headD_append_of_ne_nil (l l' : List Str) (h : l ≠ []) :
    (l ++ l').headD [] = l.headD [] := by
  cases l with
  | nil => exact absurd rfl h
  | cons a t => simp

/-! ## C9: the 50-entry cache bound and its eviction target -/

theorem cachePromptImage_cases (cache : List (Str × Str)) (p u : Str)
    (hnd : (cache.map Prod.fst).Nodup) (hlen : cache.length ≤ 50) :
    (cachePromptImage cache p u).length ≤ 50
    ∧ (cache.length < 50 ∨ objGet cache (getPromptCacheKey p) ≠ none →
        cachePromptImage cache p u = objSet cache (getPromptCacheKey p) u)
    ∧ (cache.length = 50 → objGet cache (getPromptCacheKey p) = none →
        cachePromptImage cache p u
          = objDelete (objSet cache (getPromptCacheKey p) u)
              ((objKeys (objSet cache (getPromptCacheKey p) u)).headD [])
        ∧ (cachePromptImage cache p u).length = 50
        ∧ ((∀ k ∈ cache.map Prod.fst, ¬ isArrayIndexKey k) →
            ¬ isArrayIndexKey (getPromptCacheKey p) →
            (objKeys (objSet cache (getPromptCacheKey p) u)).headD []
              = (cache.map Prod.fst).headD [])) := by
  have hmain : cachePromptImage cache p u
      = if (objKeys (objSet cache (getPromptCacheKey p) u)).length > 50
        then objDelete (objSet cache (getPromptCacheKey p) u)
          ((objKeys (objSet cache (getPromptCacheKey p) u)).headD [])
        else objSet cache (getPromptCacheKey p) u := rfl
  by_cases hfresh : objGet cache (getPromptCacheKey p) = none
  · have hnotmem : getPromptCacheKey p ∉ cache.map Prod.fst :=
      (objGet_eq_none_iff cache _).mp hfresh
    have happ : objSet cache (getPromptCacheKey p) u = cache ++ [(getPromptCacheKey p, u)] :=
      objSet_fresh_append cache _ u hnotmem
    have hlen' : (objSet cache (getPromptCacheKey p) u).length = cache.length + 1 := by
      rw [happ]
      simp
    have hmapapp : (objSet cache (getPromptCacheKey p) u).map Prod.fst
        = cache.map Prod.fst ++ [getPromptCacheKey p] := by
      rw [happ]
      simp
    have hndc' : ((objSet cache (getPromptCacheKey p) u).map Prod.fst).Nodup := by
      rw [hmapapp, List.nodup_append]
      refine ⟨hnd, List.nodup_singleton _, ?_⟩
      intro x hx hx2
      rw [List.mem_singleton] at hx2
      exact hnotmem (hx2 ▸ hx)
    by_cases h50 : cache.length = 50
    · have hkeys : (objKeys (objSet cache (getPromptCacheKey p) u)).length = 51 := by
        rw [objKeys_length, hlen', h50]
      have hif : (objKeys (objSet cache (getPromptCacheKey p) u)).length > 50 := by omega
      have hobjne : objKeys (objSet cache (getPromptCacheKey p) u) ≠ [] := by
        intro he
        rw [he] at hkeys
        simp at hkeys
      have hheadmem : (objKeys (objSet cache (getPromptCacheKey p) u)).headD []
          ∈ (objSet cache (getPromptCacheKey p) u).map Prod.fst := by
        apply mem_objKeys
        cases hok : objKeys (objSet cache (getPromptCacheKey p) u) with
        | nil => exact absurd hok hobjne
        | cons a l => simp
      have hres : cachePromptImage cache p u
          = objDelete (objSet cache (getPromptCacheKey p) u)
              ((objKeys (objSet cache (getPromptCacheKey p) u)).headD []) := by
        rw [hmain, if_pos hif]
      have hreslen : (cachePromptImage cache p u).length = 50 := by
        rw [hres]
        have := length_objDelete_of_mem _ _ hndc' hheadmem
        omega
      refine ⟨by omega, ?_, ?_⟩
      · intro hcase
        rcases hcase with h1 | h1
        · omega
        · exact absurd hfresh h1
      · intro _ _
        refine ⟨hres, hreslen, ?_⟩
        intro hallstr hkeystr
        have hfilAI : ((objSet cache (getPromptCacheKey p) u).map Prod.fst).filter
            isArrayIndexKey = [] := by
          rw [List.filter_eq_nil_iff]
          intro a ha
          rw [hmapapp, List.mem_append] at ha
          rcases ha with ha | ha
          · exact hallstr a ha
          · rw [List.mem_singleton] at ha
            exact ha ▸ hkeystr
        have hfilStr : ((objSet cache (getPromptCacheKey p) u).map Prod.fst).filter
            (fun k => !isArrayIndexKey k) = (objSet cache (getPromptCacheKey p) u).map
              Prod.fst := by
          rw [List.filter_eq_self]
          intro a ha
          rw [Bool.not_eq_true']
          rw [Bool.eq_false_iff]
          intro hAI
          rw [hmapapp, List.mem_append] at ha
          rcases ha with ha | ha
          · exact hallstr a ha hAI
          · rw [List.mem_singleton] at ha
            exact hkeystr (ha ▸ hAI)
        rw [objKeys, hfilAI, hfilStr, hmapapp]
        rw [show sortAI [] = [] from rfl, List.nil_append]
        apply headD_append_of_ne_nil
        intro he
        have := congrArg List.length he
        simp [h50] at this
    · have hlt : cache.length < 50 := by omega
      have hif : ¬ (objKeys (objSet cache (getPromptCacheKey p) u)).length > 50 := by
        rw [objKeys_length, hlen']
        omega
      have hres : cachePromptImage cache p u = objSet cache (getPromptCacheKey p) u := by
        rw [hmain, if_neg hif]
      refine ⟨?_, fun _ => hres, fun h1 _ => absurd h1 (by omega)⟩
      rw [hres, hlen']
      omega
  · have hmem : getPromptCacheKey p ∈ cache.map Prod.fst := by
      by_contra hn
      exact hfresh ((objGet_eq_none_iff cache _).mpr hn)
    have hlen' : (objSet cache (getPromptCacheKey p) u).length = cache.length :=
      length_objSet_present cache _ u hmem
    have hif : ¬ (objKeys (objSet cache (getPromptCacheKey p) u)).length > 50 := by
      rw [objKeys_length, hlen']
      omega
    have hres : cachePromptImage cache p u = objSet cache (getPromptCacheKey p) u := by
      rw [hmain, if_neg hif]
    refine ⟨?_, fun _ => hres, fun _ h2 => absurd h2 hfresh⟩
    rw [hres, hlen']
    omega

/-- **C9 (amended).** The prompt-image cache never exceeds 50 entries, and
insertions below the bound (or insertions that overwrite an existing key)
evict nothing.  An insertion of a fresh key into a full cache evicts exactly
one entry — `keys[0]` in JavaScript enumeration order, which is the
oldest-inserted key whenever neither the cache nor the new key involves an
array-index-like key (an all-digit canonical numeral); an array-index-like
key is enumerated first regardless of insertion age, so it is the one
evicted then. -/
theorem cachePromptImage_bound (cache : List (Str × Str)) (p u : Str)
    (hnd : (cache.map Prod.fst).Nodup) (hlen : cache.length ≤ 50) :
    (cachePromptImage cache p u).length ≤ 50
    ∧ (cache.length < 50 ∨ objGet cache (getPromptCacheKey p) ≠ none →
        cachePromptImage cache p u = objSet cache (getPromptCacheKey p) u)
    ∧ (cache.length = 50 → objGet cache (getPromptCacheKey p) = none →
        cachePromptImage cache p u
          = objDelete (objSet cache (getPromptCacheKey p) u)
              ((objKeys (objSet cache (getPromptCacheKey p) u)).headD [])
        ∧ (cachePromptImage cache p u).length = 50
        ∧ ((∀ k ∈ cache.map Prod.fst, ¬ isArrayIndexKey k) →
            ¬ isArrayIndexKey (getPromptCacheKey p) →
            (objKeys (objSet cache (getPromptCacheKey p) u)).headD []
              = (cache.map Prod.fst).headD [])) :=
  cachePromptImage_cases cache p u hnd hlen

/-- Witness for C9: inserting a fresh key into a one-entry cache evicts
nothing. -/
theorem cachePromptImage_bound_witness :
    (cachePromptImage [(str "a", str "v")] (str "b") (str "w")).length ≤ 50
      ∧ cachePromptImage [(str "a", str "v")] (str "b") (str "w")
        = objSet [(str "a", str "v")] (getPromptCacheKey (str "b")) (str "w") := by
  have h := cachePromptImage_bound [(str "a", str "v")] (str "b") (str "w")
    (by decide) (by decide)
  exact ⟨h.1, h.2.1 (Or.inl (by decide))⟩

/-- Two-digit non-array-index cache keys for concrete cache fixtures. -/
def twoDigitKey (i : Nat) : Str :=
  ['k', Char.ofNat (48 + i / 10), Char.ofNat (48 + i % 10)]

/-- A full 50-entry cache of plain string keys. -/
def fullCacheC7 : List (Str × Str) :=
  (List.range 50).map (fun i => (twoDigitKey i, str "v"))

/-- A full 50-entry cache whose newest-inserted key is the array-index-like
`"5"`. -/
def fullCacheC9 : List (Str × Str) :=
  ((List.range 49).map (fun i => (twoDigitKey i, str "v"))) ++ [(str "5", str "v")]

/-- Counterexample for C9 as stated: inserting the fresh key `"b"` into a
full cache whose newest entry is `"5"` evicts `"5"` — the newest-inserted
key, because array-index-like keys enumerate first — while the
oldest-inserted key `"k00"` survives. -/
theorem cachePromptImage_evicts_newest :
    objGet (cachePromptImage fullCacheC9 (str "b") (str "w")) (str "5") = none
    ∧ objGet (cachePromptImage fullCacheC9 (str "b") (str "w")) (twoDigitKey 0)
        = some (str "v")
    ∧ objGet (cachePromptImage fullCacheC9 (str "b") (str "w")) (str "b")
        = some (str "w") := by
  decide

/-! ## C7: the cache round trip of the inline marker engine -/

/-- **C7 (amended).** After a generation for prompt `p` caches image `u`
(`u` non-empty, as the caller's truthiness guard ensures), re-scanning a
marker whose cleaned body normalizes to the same cache key renders the
generated-image state with `u` directly — the scan never invokes the
generation client — provided the inserted entry survived the insertion: the
cache was below capacity, or the key overwrote an existing entry, or the
key is not array-index-like (a fresh array-index-like key inserted into a
full cache is enumerated first and at once evicted by the overflow check). -/
theorem processMarker_cache_roundtrip (cache : List (Str × Str)) (p u b : Str)
    (hnd : (cache.map Prod.fst).Nodup) (hlen : cache.length ≤ 50) (hu : u ≠ [])
    (hkey : getPromptCacheKey (cleanPromptOf b) = getPromptCacheKey p)
    (hsurv : cache.length < 50 ∨ objGet cache (getPromptCacheKey p) ≠ none
      ∨ ¬ isArrayIndexKey (getPromptCacheKey p)) :
    processMarkerBody (cachePromptImage cache p u) b = MarkerRender.generated u := by
  have hget : objGet (cachePromptImage cache p u) (getPromptCacheKey p) = some u := by
    obtain ⟨-, hnoev, hev⟩ := cachePromptImage_cases cache p u hnd hlen
    by_cases hcase : cache.length < 50 ∨ objGet cache (getPromptCacheKey p) ≠ none
    · rw [hnoev hcase]
      exact objGet_objSet_self cache _ u
    · push_neg at hcase
      obtain ⟨hge, hfresh⟩ := hcase
      have h50 : cache.length = 50 := by omega
      have hAI : ¬ isArrayIndexKey (getPromptCacheKey p) := by
        rcases hsurv with h1 | h1 | h1
        · omega
        · exact absurd hfresh (by simpa using h1)
        · exact h1
      obtain ⟨hres, -, -⟩ := hev h50 hfresh
      have hnotmem : getPromptCacheKey p ∉ cache.map Prod.fst :=
        (objGet_eq_none_iff cache _).mp hfresh
      have hmapapp : (objSet cache (getPromptCacheKey p) u).map Prod.fst
          = cache.map Prod.fst ++ [getPromptCacheKey p] := by
        rw [objSet_fresh_append cache _ u hnotmem]
        simp
      have hheadne : (objKeys (objSet cache (getPromptCacheKey p) u)).headD []
          ≠ getPromptCacheKey p := by
        set ks := cache.map Prod.fst with hks
        by_cases hfil : ks.filter isArrayIndexKey = []
        · have hallAI : ((objSet cache (getPromptCacheKey p) u).map Prod.fst).filter
              isArrayIndexKey = [] := by
            rw [hmapapp, List.filter_append, hfil, List.nil_append,
              List.filter_eq_nil_iff]
            intro a ha
            rw [List.mem_singleton] at ha
            exact ha ▸ hAI
          rw [objKeys, hallAI]
          rw [show sortAI [] = [] from rfl, List.nil_append]
          rw [hmapapp, List.filter_append]
          have hkfil : ([getPromptCacheKey p] : List Str).filter
              (fun k => !isArrayIndexKey k) = [getPromptCacheKey p] := by
            rw [List.filter_eq_self]
            intro a ha
            rw [List.mem_singleton] at ha
            subst ha
            simp [hAI]
          rw [hkfil]
          have hksne : ks.filter (fun k => !isArrayIndexKey k) ≠ [] := by
            intro he
            have h1 := length_filter_partition isArrayIndexKey ks
            rw [hfil, he] at h1
            have h2 : ks.length = 50 := by
              rw [hks, List.length_map, h50]
            simp [h2] at h1
          rw [headD_append_of_ne_nil _ _ hksne]
          intro hc
          apply hnotmem
          rw [← hc]
          cases hkd : ks.filter (fun k => !isArrayIndexKey k) with
          | nil => exact absurd hkd hksne
          | cons a t =>
            simp only [hkd, List.headD_cons]
            exact List.mem_of_mem_filter (by rw [hkd]; exact List.mem_cons_self ..)
        · have hAIapp : ((objSet cache (getPromptCacheKey p) u).map Prod.fst).filter
              isArrayIndexKey = ks.filter isArrayIndexKey := by
            rw [hmapapp, List.filter_append]
            have : ([getPromptCacheKey p] : List Str).filter isArrayIndexKey = [] := by
              rw [List.filter_eq_nil_iff]
              intro a ha
              rw [List.mem_singleton] at ha
              exact ha ▸ hAI
            rw [this, List.append_nil]
          rw [objKeys, hAIapp]
          have hsne : sortAI (ks.filter isArrayIndexKey) ≠ [] := by
            intro he
            have := congrArg List.length he
            rw [length_sortAI] at this
            exact hfil (List.length_eq_zero.mp (by simpa using this))
          rw [headD_append_of_ne_nil _ _ hsne]
          intro hc
          apply hAI
          have hmem' : (sortAI (ks.filter isArrayIndexKey)).headD []
              ∈ sortAI (ks.filter isArrayIndexKey) := by
            cases hkd : sortAI (ks.filter isArrayIndexKey) with
            | nil => exact absurd hkd hsne
            | cons a t => simp
          have := mem_sortAI.mp hmem'
          rw [hc] at this
          exact List.of_mem_filter this
      rw [hres, objGet_objDelete_ne _ _ _ (fun hc => hheadne hc.symm)]
      exact objGet_objSet_self cache _ u
  rw [processMarkerBody, getCachedImage, hkey, hget]
  simp [hu]

/-- Witness for C7: caching `"http://x"` for prompt `"cat"` in an empty
cache and re-scanning the marker body `"cat"` renders the image. -/
theorem processMarker_cache_roundtrip_witness :
    processMarkerBody (cachePromptImage [] (str "cat") (str "http://x")) (str "cat")
      = MarkerRender.generated (str "http://x") :=
  processMarker_cache_roundtrip [] (str "cat") (str "http://x") (str "cat")
    (by decide) (by decide) (by decide) (by decide) (Or.inl (by decide))

/-- Counterexample for C7 as stated: with a full 50-entry cache, a
generation for prompt `"0"` caches its image under the array-index-like key
`"0"`, which the overflow eviction immediately removes; the re-scan then
renders a trigger, not the generated image. -/
theorem processMarker_cache_roundtrip_cex :
    processMarkerBody (cachePromptImage fullCacheC7 (str "0") (str "u")) (str "0")
      ≠ MarkerRender.generated (str "u") := by
  decide

/-! ## C8: the cache-key normalization -/

/-- The cache-key normalization as the claim words it: `<br>` markup to
newlines, HTML entities decoded (unescaped), whitespace runs collapsed to a
single space, trimmed, truncated to the first 100 characters. -/
def specNormalizeKeyDecoded (prompt : Str) : Str :=
  (trim (wsCollapse (decodeCommonEntities (brReplace prompt)))).take 100

/-- Counterexample for C8 as stated: `getPromptCacheKey` deletes HTML-entity
sequences outright (`"a&amp;b"` keys as `"ab"`) instead of decoding them
(`"a&b"`), so the two normalizations disagree. -/
theorem getPromptCacheKey_removes_entities :
    getPromptCacheKey (str "a&amp;b") = str "ab"
    ∧ specNormalizeKeyDecoded (str "a&amp;b") = str "a&b"
    ∧ getPromptCacheKey (str "a&amp;b") ≠ specNormalizeKeyDecoded (str "a&amp;b") := by
  decide

/-- **C8 (amended).** The normalized cache key converts `<br>` markup to
newlines, deletes (rather than decodes) HTML-entity sequences `&…;`,
collapses whitespace runs, trims, and truncates to a 100-character prefix;
cache lookup and cache insertion both use exactly this key, so two prompts
agreeing on the normalized prefix address the same cache entry. -/
theorem getPromptCacheKey_shared_key (p q s u : Str) (cache : List (Str × Str)) :
    (getPromptCacheKey s).length ≤ 100
    ∧ (getPromptCacheKey p = getPromptCacheKey q →
        getCachedImage cache p = getCachedImage cache q
        ∧ cachePromptImage cache p u = cachePromptImage cache q u) := by
  constructor
  · rw [getPromptCacheKey]
    simp [List.length_take]
  · intro h
    constructor
    · simp only [getCachedImage, h]
    · simp only [cachePromptImage, h]

/-- Witness for C8: two prompts differing only in whitespace runs share
their cache lookups and insertions. -/
theorem getPromptCacheKey_shared_key_witness :
    getCachedImage [(str "x y", str "img")] (str "x   y")
        = getCachedImage [(str "x y", str "img")] (str " x y")
      ∧ cachePromptImage [] (str "x   y") (str "u")
        = cachePromptImage [] (str " x y") (str "u") :=
  ⟨((getPromptCacheKey_shared_key (str "x   y") (str " x y") (str "x") (str "u")
      [(str "x y", str "img")]).2 (by decide)).1,
    ((getPromptCacheKey_shared_key (str "x   y") (str " x y") (str "x") (str "u")
      []).2 (by decide)).2⟩

end ImgRouter
